import Mathlib

/- Shallow embedding of the batched log-delivery pipeline of the rplog
repository: the entry sink (datadogBatchWriter.Write), the delivery client
(send), the consumer loop (collectAndSendBatches) from src/datadog.go, and
the guarded one-time initialization (InitDatadog together with the shared
sync.Once of src/log.go). Machine integers are modelled as Nat; the byte
content of a log entry is opaque, so an entry is a list of Nat whose length
is the byte length used by the code. -/

namespace Rplog

/-- A log entry: an opaque, already-serialized byte sequence. -/
abbrev Entry := List Nat

/-- Source constant (src/datadog.go line 17): maximum content size per request, 5 MiB. -/
def maxContentSize : Nat := 5 * 1024 * 1024

/-- Source constant (src/datadog.go line 20): maximum size of a single log, 256 KiB. -/
def maxLogSize : Nat := 256 * 1024

/-- Source constant (src/datadog.go line 23): maximum number of logs per request, 1000. -/
def maxLogsPerBatch : Nat := 1000

/-- Source constant (src/datadog.go line 25): maximum number of delivery attempts, 5. -/
def maxRetries : Nat := 5

/-- The bounded channel created by make(datadogBatchWriter, 1000) in InitDatadog
(src/datadog.go line 66): a FIFO buffer of entries with a fixed capacity. -/
structure Chan where
  buf : List Entry
  cap : Nat
  deriving DecidableEq, Repr

/-- The two error cases of datadogBatchWriter.Write (src/datadog.go lines 108 and 114).
The entryTooLarge case carries the sizes printed in the source error message. -/
inductive WriteError where
  | entryTooLarge (n limit : Nat)
  | queueFull
  deriving DecidableEq, Repr

/-- Result of one call to datadogBatchWriter.Write: the returned byte count, the
returned error, and the channel state after the call. -/
structure WriteResult where
  n : Nat
  err : Option WriteError
  chan : Chan
  deriving DecidableEq, Repr

/-- datadogBatchWriter.Write (src/datadog.go lines 106 to 116): reject an entry
larger than maxLogSize with an error and a zero count; otherwise attempt a
non-blocking send on the channel, which succeeds exactly when the buffer is
below capacity, and report a queue-full error otherwise. -/
def Write (w : Chan) (b : Entry) : WriteResult :=
  if b.length > maxLogSize then
    ⟨0, some (.entryTooLarge b.length maxLogSize), w⟩
  else if w.buf.length < w.cap then
    ⟨b.length, none, ⟨w.buf ++ [b], w.cap⟩⟩
  else
    ⟨0, some .queueFull, w⟩

/-- Outcome of one HTTP exchange in the retry loop of send (src/datadog.go line 47):
either the transport returns an error (opaque error id), or a response arrives
with a status code. -/
inductive AttemptOutcome where
  | transportError (e : Nat)
  | response (status : Nat)

/-- One element of the error list accumulated by send (src/datadog.go lines 49 and 54). -/
inductive AttemptError where
  | transport (e : Nat)
  | httpStatus (status : Nat)
  deriving DecidableEq, Repr

/-- The error cases of send: encoding failure (line 35), request construction
failure (line 39), and retry exhaustion carrying the accumulated per-attempt
errors (line 60). -/
inductive SendError where
  | encodingFailure (e : Nat)
  | requestFailure (e : Nat)
  | deliveryFailure (errs : List AttemptError)
  deriving DecidableEq, Repr

/-- Observable trace of one call to send: the sleep durations in milliseconds
issued before each HTTP attempt, in order, the number of HTTP attempts issued,
and the final result (none means success). -/
structure SendTrace where
  sleeps : List Nat
  attempts : Nat
  result : Option SendError
  deriving DecidableEq, Repr

/-- An attempt counts as failed when the transport errors or the status code is
at least 400 (src/datadog.go lines 48 and 53). -/
def failedAttempt : AttemptOutcome → Bool
  | .transportError _ => true
  | .response s => decide (400 ≤ s)

/-- The error recorded for a failed attempt (src/datadog.go lines 49 and 54). -/
def attemptErr : AttemptOutcome → AttemptError
  | .transportError e => .transport e
  | .response s => .httpStatus s

/-- The retry loop of send (src/datadog.go lines 45 to 60), written with the
remaining iteration count as fuel: the source loop runs i from 0 while
i < maxRetries, sleeping 10 ms times i at the top of each iteration, retrying
on transport error or status at least 400, returning success on the first
attempt that does neither, and returning the accumulated error list once the
fuel is exhausted. The oracle gives the outcome of the attempt with index i. -/
def sendLoop (oracle : Nat → AttemptOutcome) : Nat → Nat → List AttemptError → List Nat → SendTrace
  | 0, i, errs, sleeps => ⟨sleeps, i, some (.deliveryFailure errs)⟩
  | fuel + 1, i, errs, sleeps =>
    match oracle i with
    | .transportError e => sendLoop oracle fuel (i + 1) (errs ++ [.transport e]) (sleeps ++ [10 * i])
    | .response s =>
      if 400 ≤ s then
        sendLoop oracle fuel (i + 1) (errs ++ [.httpStatus s]) (sleeps ++ [10 * i])
      else
        ⟨sleeps ++ [10 * i], i + 1, none⟩

/-- send (src/datadog.go lines 31 to 61): encode the batch into the buffer,
returning at once on an encoding error, then build the request, returning at
once on a construction error, then run the retry loop. Fallibility of the JSON
encoder and of request construction is opaque to this layer, so each is an
input; the HTTP exchanges are the oracle. -/
def send (encodeErr reqErr : Option Nat) (oracle : Nat → AttemptOutcome) : SendTrace :=
  match encodeErr with
  | some e => ⟨[], 0, some (.encodingFailure e)⟩
  | none =>
    match reqErr with
    | some e => ⟨[], 0, some (.requestFailure e)⟩
    | none => sendLoop oracle maxRetries 0 [] []

/-- The three event sources of the select statement in collectAndSendBatches
(src/datadog.go lines 81 to 101): a ticker tick, cancellation of the context,
and arrival of an entry on the channel. -/
inductive Event where
  | tick
  | ctxDone
  | entry (e : Entry)
  deriving DecidableEq, Repr

/-- State of the consumer loop: the slice named batches in the source (the
current batch), the running byte total batchSize, and, as instrumentation, the
list of batch arguments passed to send so far, in call order. -/
structure ConsumerState where
  batches : List Entry
  batchSize : Nat
  delivered : List (List Entry)
  deriving DecidableEq, Repr

/-- The state at the top of collectAndSendBatches (src/datadog.go lines 76 to 77):
empty batch, zero size, no delivery attempt issued yet. -/
def initialState : ConsumerState := ⟨[], 0, []⟩

/-- Record one call to send with the current batch as argument. The loop
discards the return value of send, so the outcome does not affect the state. -/
def sendBatch (s : ConsumerState) : ConsumerState :=
  { s with delivered := s.delivered ++ [s.batches] }

/-- One iteration of the select statement of collectAndSendBatches
(src/datadog.go lines 81 to 101). The Bool is true when the loop continues.
On a tick, send the batch when it is non-empty, then truncate the batch slice;
the source does not reset batchSize here. On cancellation, send the batch when
it is non-empty and return. On an entry, when the batch already holds at least
maxLogsPerBatch entries or the new entry would push batchSize to maxContentSize
or beyond, call send on the current batch and reset both the slice and
batchSize, then append the entry and add its length to batchSize. -/
def step (s : ConsumerState) : Event → ConsumerState × Bool
  | .tick =>
    let s1 := if s.batches.length > 0 then sendBatch s else s
    ({ s1 with batches := [] }, true)
  | .ctxDone =>
    let s1 := if s.batches.length > 0 then sendBatch s else s
    (s1, false)
  | .entry e =>
    let s1 :=
      if maxLogsPerBatch ≤ s.batches.length ∨ maxContentSize ≤ e.length + s.batchSize then
        { sendBatch s with batches := [], batchSize := 0 }
      else s
    ({ s1 with batches := s1.batches ++ [e], batchSize := s1.batchSize + e.length }, true)

/-- Run the consumer loop over a sequence of observed events. The Bool of the
result is true when the loop returned through the cancellation branch; events
after the cancellation are not processed, as the source returns there. -/
def run : ConsumerState → List Event → ConsumerState × Bool
  | s, [] => (s, false)
  | s, ev :: evs =>
    match step s ev with
    | (s1, true) => run s1 evs
    | (s1, false) => (s1, true)

/-- The entry payloads of an event sequence, in arrival order. -/
def entriesOf : List Event → List Entry
  | [] => []
  | .entry e :: evs => e :: entriesOf evs
  | _ :: evs => entriesOf evs

/-- Actual byte total of a batch: the sum of the lengths of its entries. -/
def batchBytes (b : List Entry) : Nat := (b.map List.length).sum

/-- The initialization entry points that use the package-level sync.Once named
once (src/log.go line 29): Log and Init (src/log.go lines 60 and 63), which run
initEager, and InitDatadog (src/datadog.go lines 64 to 72), whose callback is
supposed to start the consumer pipeline. -/
inductive InitCall where
  | logOrInit
  | initDatadog
  deriving DecidableEq, Repr

/-- Process-wide initialization state: whether the shared sync.Once has fired,
and how many times the consumer pipeline was started with go
collectAndSendBatches (src/datadog.go line 70). -/
structure InitState where
  onceDone : Bool
  pipelineStarts : Nat
  deriving DecidableEq, Repr

/-- Effect of one initialization call on the shared once (src/log.go line 29).
Log and Init run once.Do with initEager, which starts no pipeline. InitDatadog
runs once.Do with a callback (src/datadog.go lines 65 to 71) that calls Init,
which re-enters Do on the same sync.Once; by the documented semantics of
sync.Once.Do, a call of Do from within the callback deadlocks, so when the
callback actually runs, InitDatadog blocks forever at the Init call, before the
go statement of line 70 is reached. The deadlocked execution is the value none. -/
def initStep (s : InitState) : InitCall → Option InitState
  | .logOrInit => if s.onceDone then some s else some ⟨true, s.pipelineStarts⟩
  | .initDatadog => if s.onceDone then some s else none

/-- Run a sequence of initialization calls from a starting state; none when
some call in the sequence deadlocks. -/
def runInit : InitState → List InitCall → Option InitState
  | s, [] => some s
  | s, c :: cs =>
    match initStep s c with
    | some s1 => runInit s1 cs
    | none => none

/-- Concrete test vector: an entry one byte over the per-entry limit. -/
def oversizedEntry : Entry := List.replicate (maxLogSize + 1) 0

lemma cons_range_shift {α : Type} (g : Nat → α) (i f : Nat) :
    g i :: (List.range f).map (fun k => g (i + 1 + k)) =
      (List.range (f + 1)).map (fun k => g (i + k)) := by
  rw [List.range_succ_eq_map, List.map_cons, List.map_map]
  congr 1
  refine List.map_congr_left fun a _ => ?_
  simp only [Function.comp_apply]
  exact congrArg g (by omega)

lemma sendLoop_all_fail (oracle : Nat → AttemptOutcome) :
    ∀ (f i : Nat) (errs : List AttemptError) (sleeps : List Nat),
      (∀ k, k < f → failedAttempt (oracle (i + k)) = true) →
      sendLoop oracle f i errs sleeps =
        ⟨sleeps ++ (List.range f).map (fun k => 10 * (i + k)), i + f,
          some (.deliveryFailure (errs ++ (List.range f).map (fun k => attemptErr (oracle (i + k)))))⟩ := by
  intro f
  induction f with
  | zero => intro i errs sleeps _; simp [sendLoop]
  | succ f ih =>
    intro i errs sleeps h
    have h0 : failedAttempt (oracle i) = true := by
      have h1 := h 0 (Nat.succ_pos f)
      simpa using h1
    have hrec : ∀ k, k < f → failedAttempt (oracle (i + 1 + k)) = true := by
      intro k hk
      have h1 := h (k + 1) (by omega)
      simpa [show i + (k + 1) = i + 1 + k from by omega] using h1
    have hshift : ∀ {α : Type} (g : Nat → α) (l : List α) (x : α), x = g i →
        (l ++ [x]) ++ (List.range f).map (fun k => g (i + 1 + k)) =
          l ++ (List.range (f + 1)).map (fun k => g (i + k)) := by
      intro α g l x hx
      rw [List.append_assoc, List.singleton_append, hx, cons_range_shift]
    cases hor : oracle i with
    | transportError e =>
      simp only [sendLoop, hor]
      rw [ih (i + 1) _ _ hrec]
      simp only [SendTrace.mk.injEq, Option.some.injEq, SendError.deliveryFailure.injEq]
      refine ⟨hshift (fun t => 10 * t) sleeps (10 * i) rfl, by omega, ?_⟩
      exact hshift (fun t => attemptErr (oracle t)) errs (AttemptError.transport e) (by simp [hor, attemptErr])
    | response s =>
      have h400 : 400 ≤ s := by
        rw [hor] at h0
        simpa [failedAttempt] using h0
      simp only [sendLoop, hor, if_pos h400]
      rw [ih (i + 1) _ _ hrec]
      simp only [SendTrace.mk.injEq, Option.some.injEq, SendError.deliveryFailure.injEq]
      refine ⟨hshift (fun t => 10 * t) sleeps (10 * i) rfl, by omega, ?_⟩
      exact hshift (fun t => attemptErr (oracle t)) errs (AttemptError.httpStatus s) (by simp [hor, attemptErr])

lemma sendLoop_first_success (oracle : Nat → AttemptOutcome) :
    ∀ (j f i : Nat) (errs : List AttemptError) (sleeps : List Nat),
      j < f →
      (∀ k, k < j → failedAttempt (oracle (i + k)) = true) →
      failedAttempt (oracle (i + j)) = false →
      sendLoop oracle f i errs sleeps =
        ⟨sleeps ++ (List.range (j + 1)).map (fun k => 10 * (i + k)), i + (j + 1), none⟩ := by
  intro j
  induction j with
  | zero =>
    intro f i errs sleeps hjf _ hsucc
    rw [Nat.add_zero] at hsucc
    cases f with
    | zero => omega
    | succ f =>
      cases hor : oracle i with
      | transportError e =>
        rw [hor] at hsucc
        simp [failedAttempt] at hsucc
      | response s =>
        rw [hor] at hsucc
        have h400 : ¬ 400 ≤ s := by simpa [failedAttempt] using hsucc
        simp only [sendLoop, hor, if_neg h400]
        simp [List.range_succ]
  | succ j ih =>
    intro f i errs sleeps hjf hfail hsucc
    cases f with
    | zero => omega
    | succ f =>
      have h0 : failedAttempt (oracle i) = true := by
        have h1 := hfail 0 (by omega)
        simpa using h1
      have hfail1 : ∀ k, k < j → failedAttempt (oracle (i + 1 + k)) = true := by
        intro k hk
        have h1 := hfail (k + 1) (by omega)
        simpa [show i + (k + 1) = i + 1 + k from by omega] using h1
      have hsucc1 : failedAttempt (oracle (i + 1 + j)) = false := by
        simpa [show i + (j + 1) = i + 1 + j from by omega] using hsucc
      have hshift : ∀ (l : List Nat),
          (l ++ [10 * i]) ++ (List.range (j + 1)).map (fun k => 10 * (i + 1 + k)) =
            l ++ (List.range (j + 1 + 1)).map (fun k => 10 * (i + k)) := by
        intro l
        rw [List.append_assoc, List.singleton_append]
        exact congrArg (l ++ ·) (cons_range_shift (fun t => 10 * t) i (j + 1))
      cases hor : oracle i with
      | transportError e =>
        simp only [sendLoop, hor]
        rw [ih f (i + 1) _ _ (by omega) hfail1 hsucc1]
        simp only [SendTrace.mk.injEq]
        exact ⟨hshift sleeps, by omega, trivial⟩
      | response s =>
        have h400 : 400 ≤ s := by
          rw [hor] at h0
          simpa [failedAttempt] using h0
        simp only [sendLoop, hor, if_pos h400]
        rw [ih f (i + 1) _ _ (by omega) hfail1 hsucc1]
        simp only [SendTrace.mk.injEq]
        exact ⟨hshift sleeps, by omega, trivial⟩

lemma sendLoop_bound (oracle : Nat → AttemptOutcome) :
    ∀ (f i : Nat) (errs : List AttemptError) (sleeps : List Nat),
      ∃ m, m ≤ f ∧ (sendLoop oracle f i errs sleeps).attempts = i + m ∧
        (sendLoop oracle f i errs sleeps).sleeps =
          sleeps ++ (List.range m).map (fun k => 10 * (i + k)) := by
  intro f
  induction f with
  | zero => intro i errs sleeps; exact ⟨0, Nat.le_refl 0, by simp [sendLoop], by simp [sendLoop]⟩
  | succ f ih =>
    intro i errs sleeps
    have hshift : ∀ (m : Nat) (l : List Nat),
        (l ++ [10 * i]) ++ (List.range m).map (fun k => 10 * (i + 1 + k)) =
          l ++ (List.range (m + 1)).map (fun k => 10 * (i + k)) := by
      intro m l
      rw [List.append_assoc, List.singleton_append]
      exact congrArg (l ++ ·) (cons_range_shift (fun t => 10 * t) i m)
    cases hor : oracle i with
    | transportError e =>
      obtain ⟨m, hm, ha, hs⟩ := ih (i + 1) (errs ++ [.transport e]) (sleeps ++ [10 * i])
      refine ⟨m + 1, by omega, ?_, ?_⟩
      · simp only [sendLoop, hor]; rw [ha]; omega
      · simp only [sendLoop, hor]; rw [hs]; exact hshift m sleeps
    | response s =>
      by_cases h400 : 400 ≤ s
      · obtain ⟨m, hm, ha, hs⟩ := ih (i + 1) (errs ++ [.httpStatus s]) (sleeps ++ [10 * i])
        refine ⟨m + 1, by omega, ?_, ?_⟩
        · simp only [sendLoop, hor, if_pos h400]; rw [ha]; omega
        · simp only [sendLoop, hor, if_pos h400]; rw [hs]; exact hshift m sleeps
      · refine ⟨1, by omega, ?_, ?_⟩
        · simp only [sendLoop, hor, if_neg h400]
        · simp only [sendLoop, hor, if_neg h400]
          simp [List.range_succ]

/-- Claim C2: the delivery function makes at most 5 HTTP POST attempts per
batch, sleeping 10 ms times i before the 0-indexed attempt i; an attempt fails
exactly when the transport errors or the status is at least 400; the first
attempt that does neither ends the loop with no error (success on the 3rd
attempt means exactly 3 attempts), and when all 5 attempts fail the call
returns the aggregated list of per-attempt errors. -/
theorem send_retry_policy (oracle : Nat → AttemptOutcome) :
    (send none none oracle).attempts ≤ maxRetries ∧
    (send none none oracle).sleeps =
      (List.range (send none none oracle).attempts).map (fun i => 10 * i) ∧
    ((∀ i, i < maxRetries → failedAttempt (oracle i) = true) →
      (send none none oracle).attempts = maxRetries ∧
      (send none none oracle).result =
        some (.deliveryFailure ((List.range maxRetries).map (fun i => attemptErr (oracle i))))) ∧
    (∀ j, j < maxRetries → (∀ k, k < j → failedAttempt (oracle k) = true) →
      failedAttempt (oracle j) = false →
      (send none none oracle).attempts = j + 1 ∧ (send none none oracle).result = none) := by
  have hsend : send none none oracle = sendLoop oracle maxRetries 0 [] [] := rfl
  obtain ⟨m, hm, ha, hs⟩ := sendLoop_bound oracle maxRetries 0 [] []
  rw [hsend]
  refine ⟨?_, ?_, ?_, ?_⟩
  · rw [ha]; omega
  · rw [ha, hs]; simp
  · intro hall
    have hall0 : ∀ k, k < maxRetries → failedAttempt (oracle (0 + k)) = true := by
      intro k hk; simpa using hall k hk
    rw [sendLoop_all_fail oracle maxRetries 0 [] [] hall0]
    exact ⟨by simp, by simp⟩
  · intro j hj hfail hsucc
    have hfail0 : ∀ k, k < j → failedAttempt (oracle (0 + k)) = true := by
      intro k hk; simpa using hfail k hk
    rw [sendLoop_first_success oracle j maxRetries 0 [] [] hj hfail0 (by simpa using hsucc)]
    exact ⟨by simp, rfl⟩

/-- Witness for send_retry_policy: a destination failing with 500 on the first
two attempts and succeeding with 200 on the third yields exactly 3 attempts
and no error. -/
theorem send_retry_policy_witness :
    (send none none (fun i => .response (if i < 2 then 500 else 200))).attempts = 2 + 1 ∧
    (send none none (fun i => .response (if i < 2 then 500 else 200))).result = none :=
  (send_retry_policy (fun i => .response (if i < 2 then 500 else 200))).2.2.2 2
    (by decide) (by decide) (by decide)

/-- Claim C8: when batch-to-JSON serialization fails, send returns an encoding
error at once: no sleep is issued and zero HTTP attempts are made, whatever the
transport would have answered. -/
theorem encoding_failure_aborts (e : Nat) (reqErr : Option Nat) (oracle : Nat → AttemptOutcome) :
    send (some e) reqErr oracle = ⟨[], 0, some (.encodingFailure e)⟩ := rfl

lemma run_cons (s : ConsumerState) (ev : Event) (evs : List Event) :
    run s (ev :: evs) =
      if (step s ev).2 then run (step s ev).1 evs else ((step s ev).1, true) := by
  rw [run]
  rcases h : step s ev with ⟨s1, b⟩
  cases b <;> simp

lemma step_tick_pos (s : ConsumerState) (hb : 0 < s.batches.length) :
    step s Event.tick = (⟨[], s.batchSize, s.delivered ++ [s.batches]⟩, true) := by
  obtain ⟨b, n, d⟩ := s
  simp only [step, sendBatch]
  simp at hb
  simp [hb]

lemma step_tick_neg (s : ConsumerState) (hb : ¬ 0 < s.batches.length) :
    step s Event.tick = (⟨[], s.batchSize, s.delivered⟩, true) := by
  obtain ⟨b, n, d⟩ := s
  simp only [step, sendBatch]
  simp at hb
  simp [hb]

lemma step_done_pos (s : ConsumerState) (hb : 0 < s.batches.length) :
    step s Event.ctxDone = (⟨s.batches, s.batchSize, s.delivered ++ [s.batches]⟩, false) := by
  obtain ⟨b, n, d⟩ := s
  simp only [step, sendBatch]
  simp at hb
  simp [hb]

lemma step_done_neg (s : ConsumerState) (hb : ¬ 0 < s.batches.length) :
    step s Event.ctxDone = (⟨s.batches, s.batchSize, s.delivered⟩, false) := by
  obtain ⟨b, n, d⟩ := s
  simp only [step, sendBatch]
  simp at hb
  simp [hb]

lemma step_entry_pos (s : ConsumerState) (e : Entry)
    (hc : maxLogsPerBatch ≤ s.batches.length ∨ maxContentSize ≤ e.length + s.batchSize) :
    step s (Event.entry e) = (⟨[e], e.length, s.delivered ++ [s.batches]⟩, true) := by
  obtain ⟨b, n, d⟩ := s
  simp only [step, sendBatch]
  simp at hc
  simp [hc]

lemma step_entry_neg (s : ConsumerState) (e : Entry)
    (hc : ¬ (maxLogsPerBatch ≤ s.batches.length ∨ maxContentSize ≤ e.length + s.batchSize)) :
    step s (Event.entry e) = (⟨s.batches ++ [e], s.batchSize + e.length, s.delivered⟩, true) := by
  obtain ⟨b, n, d⟩ := s
  simp only [step, sendBatch]
  rw [if_neg hc]

lemma run_flush (pre : List Event) :
    ∀ s : ConsumerState, Event.ctxDone ∉ pre →
      ((run s (pre ++ [Event.ctxDone])).1).delivered.flatten =
        s.delivered.flatten ++ s.batches ++ entriesOf pre ∧
      (run s (pre ++ [Event.ctxDone])).2 = true := by
  induction pre with
  | nil =>
    intro s _
    rw [List.nil_append, run_cons]
    by_cases hb : 0 < s.batches.length
    · rw [step_done_pos s hb]
      simp [entriesOf]
    · have hnil : s.batches = [] := List.eq_nil_of_length_eq_zero (by omega)
      rw [step_done_neg s hb]
      simp [entriesOf, hnil]
  | cons ev pre ih =>
    intro s hmem
    have hmem1 : Event.ctxDone ∉ pre := fun h => hmem (List.mem_cons_of_mem _ h)
    rw [List.cons_append, run_cons]
    cases ev with
    | ctxDone => exact absurd (List.mem_cons_self _ _) hmem
    | tick =>
      by_cases hb : 0 < s.batches.length
      · rw [step_tick_pos s hb]
        obtain ⟨h1, h2⟩ := ih ⟨[], s.batchSize, s.delivered ++ [s.batches]⟩ hmem1
        refine ⟨?_, by simpa using h2⟩
        simp only [if_true]
        rw [h1]
        simp [entriesOf]
      · have hnil : s.batches = [] := List.eq_nil_of_length_eq_zero (by omega)
        rw [step_tick_neg s hb]
        obtain ⟨h1, h2⟩ := ih ⟨[], s.batchSize, s.delivered⟩ hmem1
        refine ⟨?_, by simpa using h2⟩
        simp only [if_true]
        rw [h1]
        simp [entriesOf, hnil]
    | entry e =>
      by_cases hc : maxLogsPerBatch ≤ s.batches.length ∨ maxContentSize ≤ e.length + s.batchSize
      · rw [step_entry_pos s e hc]
        obtain ⟨h1, h2⟩ := ih ⟨[e], e.length, s.delivered ++ [s.batches]⟩ hmem1
        refine ⟨?_, by simpa using h2⟩
        simp only [if_true]
        rw [h1]
        simp [entriesOf]
      · rw [step_entry_neg s e hc]
        obtain ⟨h1, h2⟩ := ih ⟨s.batches ++ [e], s.batchSize + e.length, s.delivered⟩ hmem1
        refine ⟨?_, by simpa using h2⟩
        simp only [if_true]
        rw [h1]
        simp [entriesOf]

/-- Claim C3: over any event sequence without cancellation followed by the
shutdown signal, the entries appearing across all batches passed to send,
concatenated in delivery order, are exactly the entries in arrival order:
nothing is reordered, duplicated, or dropped, and the loop then returns. -/
theorem consumer_preserves_order (pre : List Event) (h : Event.ctxDone ∉ pre) :
    ((run initialState (pre ++ [Event.ctxDone])).1).delivered.flatten = entriesOf pre ∧
    (run initialState (pre ++ [Event.ctxDone])).2 = true := by
  obtain ⟨h1, h2⟩ := run_flush pre initialState h
  refine ⟨?_, h2⟩
  rw [h1]
  simp [initialState]

/-- Witness for consumer_preserves_order: three entries interleaved with a
tick arrive and are delivered in order across two batches. -/
theorem consumer_preserves_order_witness :
    ((run initialState
        ([Event.entry [0], Event.tick, Event.entry [1], Event.entry [2]] ++
          [Event.ctxDone])).1).delivered.flatten =
      entriesOf [Event.entry [0], Event.tick, Event.entry [1], Event.entry [2]] ∧
    (run initialState
        ([Event.entry [0], Event.tick, Event.entry [1], Event.entry [2]] ++
          [Event.ctxDone])).2 = true :=
  consumer_preserves_order [Event.entry [0], Event.tick, Event.entry [1], Event.entry [2]]
    (by decide)

lemma run_inv (evs : List Event) :
    ∀ s : ConsumerState,
      (∀ e, Event.entry e ∈ evs → e.length ≤ maxLogSize) →
      s.batches.length ≤ maxLogsPerBatch →
      batchBytes s.batches ≤ s.batchSize →
      s.batchSize < maxContentSize →
      (∀ b ∈ s.delivered, b.length ≤ maxLogsPerBatch ∧ batchBytes b < maxContentSize) →
      ((run s evs).1.batches.length ≤ maxLogsPerBatch ∧
        batchBytes (run s evs).1.batches ≤ (run s evs).1.batchSize ∧
        (run s evs).1.batchSize < maxContentSize ∧
        ∀ b ∈ (run s evs).1.delivered,
          b.length ≤ maxLogsPerBatch ∧ batchBytes b < maxContentSize) := by
  induction evs with
  | nil => intro s _ h1 h2 h3 h4; exact ⟨h1, h2, h3, h4⟩
  | cons ev evs ih =>
    intro s hall h1 h2 h3 h4
    have hall1 : ∀ e, Event.entry e ∈ evs → e.length ≤ maxLogSize := fun e he =>
      hall e (List.mem_cons_of_mem _ he)
    have hgood : ∀ b ∈ s.delivered ++ [s.batches],
        b.length ≤ maxLogsPerBatch ∧ batchBytes b < maxContentSize := by
      intro b hbmem
      rcases List.mem_append.1 hbmem with hbmem | hbmem
      · exact h4 b hbmem
      · rw [List.mem_singleton.1 hbmem]
        exact ⟨h1, Nat.lt_of_le_of_lt h2 h3⟩
    rw [run_cons]
    cases ev with
    | tick =>
      by_cases hb : 0 < s.batches.length
      · rw [step_tick_pos s hb]
        simp only [if_true]
        exact ih ⟨[], s.batchSize, s.delivered ++ [s.batches]⟩ hall1
          (by simp [maxLogsPerBatch]) (by simp [batchBytes]) h3 hgood
      · rw [step_tick_neg s hb]
        simp only [if_true]
        exact ih ⟨[], s.batchSize, s.delivered⟩ hall1
          (by simp [maxLogsPerBatch]) (by simp [batchBytes]) h3 h4
    | ctxDone =>
      by_cases hb : 0 < s.batches.length
      · rw [step_done_pos s hb]
        exact ⟨h1, h2, h3, hgood⟩
      · rw [step_done_neg s hb]
        exact ⟨h1, h2, h3, h4⟩
    | entry e =>
      have he : e.length ≤ maxLogSize := hall e (List.mem_cons_self _ _)
      have hlim : maxLogSize < maxContentSize := by
        rw [maxLogSize, maxContentSize]; omega
      by_cases hc : maxLogsPerBatch ≤ s.batches.length ∨ maxContentSize ≤ e.length + s.batchSize
      · rw [step_entry_pos s e hc]
        simp only [if_true]
        refine ih ⟨[e], e.length, s.delivered ++ [s.batches]⟩ hall1 ?_ ?_ ?_ hgood
        · simp [maxLogsPerBatch]
        · simp [batchBytes]
        · show e.length < maxContentSize
          omega
      · rw [step_entry_neg s e hc]
        simp only [if_true]
        push_neg at hc
        obtain ⟨hc1, hc2⟩ := hc
        refine ih ⟨s.batches ++ [e], s.batchSize + e.length, s.delivered⟩ hall1 ?_ ?_ ?_ h4
        · simp only [List.length_append, List.length_singleton]
          omega
        · simp only [batchBytes, List.map_append, List.sum_append] at h2 ⊢
          simp
          omega
        · show s.batchSize + e.length < maxContentSize
          omega

/-- Claim C4: when every entry arriving at the consumer is at most maxLogSize
bytes, every batch passed to send holds at most maxLogsPerBatch entries and at
most maxContentSize total bytes; moreover an entry whose addition would breach
either ceiling makes the loop send the existing batch first, after which the
entry starts a new batch by itself. -/
theorem batch_size_invariant (evs : List Event)
    (h : ∀ e, Event.entry e ∈ evs → e.length ≤ maxLogSize) :
    (∀ b ∈ ((run initialState evs).1).delivered,
      b.length ≤ maxLogsPerBatch ∧ batchBytes b ≤ maxContentSize) ∧
    (∀ s : ConsumerState, ∀ e : Entry,
      maxLogsPerBatch ≤ s.batches.length ∨ maxContentSize ≤ e.length + s.batchSize →
      (step s (Event.entry e)).1 = ⟨[e], e.length, s.delivered ++ [s.batches]⟩) := by
  constructor
  · have hinv := run_inv evs initialState h (by simp [initialState, maxLogsPerBatch])
      (by simp [initialState, batchBytes]) (by show (0 : Nat) < maxContentSize; rw [maxContentSize]; omega)
      (by simp [initialState])
    intro b hb
    obtain ⟨hb1, hb2⟩ := hinv.2.2.2 b hb
    exact ⟨hb1, Nat.le_of_lt hb2⟩
  · intro s e hc
    rw [step_entry_pos s e hc]

/-- Witness for batch_size_invariant: a full batch of maxLogsPerBatch empty
entries is flushed before a new one-byte entry starts a fresh batch. -/
theorem batch_size_invariant_witness :
    (step ⟨List.replicate maxLogsPerBatch [], 0, []⟩ (Event.entry [0])).1 =
      ⟨[[0]], ([0] : Entry).length, [] ++ [List.replicate maxLogsPerBatch []]⟩ :=
  (batch_size_invariant [] (by simp)).2 ⟨List.replicate maxLogsPerBatch [], 0, []⟩ [0]
    (Or.inl (by simp))

/-- Claim C7: with exactly one entry received and no tick, the cancellation
signal makes the loop issue exactly one delivery attempt, containing exactly
that entry, and then return. -/
theorem shutdown_flush (e : Entry) (h : e.length ≤ maxLogSize) :
    ((run initialState [Event.entry e, Event.ctxDone]).1).delivered = [[e]] ∧
    (run initialState [Event.entry e, Event.ctxDone]).2 = true := by
  have hml : maxLogSize < maxContentSize := by rw [maxLogSize, maxContentSize]; omega
  have hc : ¬ (maxLogsPerBatch ≤ initialState.batches.length ∨
      maxContentSize ≤ e.length + initialState.batchSize) := by
    push_neg
    refine ⟨?_, ?_⟩
    · show (0 : Nat) < maxLogsPerBatch
      rw [maxLogsPerBatch]; omega
    · show e.length + 0 < maxContentSize
      omega
  rw [run_cons, step_entry_neg initialState e hc]
  simp only [if_true]
  rw [run_cons]
  have hb : 0 < (⟨initialState.batches ++ [e], initialState.batchSize + e.length,
      initialState.delivered⟩ : ConsumerState).batches.length := by simp
  rw [step_done_pos _ hb]
  simp [initialState]

/-- Witness for shutdown_flush: one single-byte entry, then cancellation. -/
theorem shutdown_flush_witness :
    ((run initialState [Event.entry [0], Event.ctxDone]).1).delivered = [[[0]]] ∧
    (run initialState [Event.entry [0], Event.ctxDone]).2 = true :=
  shutdown_flush [0] (by decide)

/-- Claim C1 evidence: after the tick-triggered delivery of a one-byte entry,
the entry list is reset but the running byte total batchSize still holds the
old value 1, so the batch is not reset to empty in the sense of the claim;
the source (src/datadog.go line 86) truncates only the slice in the tick
branch and leaves batchSize untouched. -/
theorem tick_leaves_stale_batch_size :
    ((run initialState [Event.entry [0], Event.tick]).1).delivered = [[[0]]] ∧
    ((run initialState [Event.entry [0], Event.tick]).1).batches = [] ∧
    ((run initialState [Event.entry [0], Event.tick]).1).batchSize ≠ 0 := by decide

/-- Claim C9 evidence: the consumer pipeline is not started exactly once. A
first call to InitDatadog runs the once callback, which re-enters the shared
sync.Once through Init and deadlocks before the go statement, modelled as
none; and when Log or Init has already fired the once, a later InitDatadog
call is a no-op, completing with zero pipeline starts. -/
theorem pipeline_never_starts :
    runInit ⟨false, 0⟩ [InitCall.initDatadog] = none ∧
    runInit ⟨false, 0⟩ [InitCall.logOrInit, InitCall.initDatadog] = some ⟨true, 0⟩ := by
  decide

/-- Claim C5: a call to Write fails with the entry-too-large error exactly
when the entry is strictly longer than maxLogSize, and in that case zero bytes
are accepted and the queue is left unchanged, so the entry is never enqueued. -/
theorem entry_too_large_iff (w : Chan) (b : Entry) :
    ((Write w b).err = some (.entryTooLarge b.length maxLogSize) ↔ maxLogSize < b.length) ∧
    (maxLogSize < b.length → (Write w b).n = 0 ∧ (Write w b).chan = w) := by
  by_cases hlarge : b.length > maxLogSize
  · constructor
    · simp [Write, hlarge]
    · intro _
      simp [Write, hlarge]
  · constructor
    · by_cases hcap : w.buf.length < w.cap
      · simp [Write, hlarge, hcap]
      · simp [Write, hlarge, hcap]
    · intro hlt
      exact absurd hlt hlarge

/-- Witness for entry_too_large_iff: an entry one byte over the limit is
rejected with zero bytes accepted and the queue untouched. -/
theorem entry_too_large_iff_witness :
    (Write ⟨[], 3⟩ oversizedEntry).n = 0 ∧ (Write ⟨[], 3⟩ oversizedEntry).chan = ⟨[], 3⟩ :=
  (entry_too_large_iff ⟨[], 3⟩ oversizedEntry).2 (by rw [oversizedEntry, List.length_replicate]; omega)

/-- Counterexample to claim C6 as stated: with the queue at its full capacity
of 1000 and an entry one byte over the per-entry limit, Write returns the
entry-too-large error, not the queue-full error the claim requires for every
write against a full queue. -/
theorem queue_full_claim_counterexample :
    (List.replicate 1000 ([] : Entry)).length = 1000 ∧
    (Write ⟨List.replicate 1000 [], 1000⟩ oversizedEntry).err =
      some (.entryTooLarge (maxLogSize + 1) maxLogSize) ∧
    (Write ⟨List.replicate 1000 [], 1000⟩ oversizedEntry).err ≠ some .queueFull := by
  have hlen : oversizedEntry.length = maxLogSize + 1 := by
    rw [oversizedEntry]
    exact List.length_replicate _ _
  refine ⟨List.length_replicate _ _, ?_, ?_⟩
  · simp only [Write, hlen]
    rw [if_pos (by omega : maxLogSize + 1 > maxLogSize)]
  · simp only [Write, hlen]
    rw [if_pos (by omega : maxLogSize + 1 > maxLogSize)]
    simp

/-- Claim C6 amended: whenever the queue is at capacity and the entry is within
the per-entry size limit, Write returns the queue-full error at once, accepts
zero bytes, and leaves the queue unchanged; and no call to Write ever grows a
queue beyond its capacity. -/
theorem queue_full_rejects (w : Chan) (b : Entry)
    (hfull : w.cap ≤ w.buf.length) (hsize : b.length ≤ maxLogSize) :
    Write w b = ⟨0, some .queueFull, w⟩ ∧
    (∀ w2 : Chan, ∀ b2 : Entry, w2.buf.length ≤ w2.cap →
      (Write w2 b2).chan.buf.length ≤ w2.cap) := by
  constructor
  · simp only [Write]
    rw [if_neg (by omega : ¬ b.length > maxLogSize),
      if_neg (by omega : ¬ w.buf.length < w.cap)]
  · intro w2 b2 hle
    simp only [Write]
    by_cases h1 : b2.length > maxLogSize
    · simp [h1]
      exact hle
    · by_cases h2 : w2.buf.length < w2.cap
      · simp [h1, h2]
        omega
      · simp [h1, h2]
        exact hle

/-- Witness for queue_full_rejects at the source capacity of 1000. -/
theorem queue_full_rejects_witness :
    Write ⟨List.replicate 1000 [], 1000⟩ [0] =
      ⟨0, some .queueFull, ⟨List.replicate 1000 [], 1000⟩⟩ :=
  (queue_full_rejects ⟨List.replicate 1000 [], 1000⟩ [0] (by rw [List.length_replicate]) (by decide)).1

/-- Claim C10: Write either accepts the whole entry, returning its length with
no error and the entry appended to the queue, or accepts nothing, returning
zero with a non-nil error and the queue unchanged; no partial count is ever
reported. -/
theorem write_all_or_nothing (w : Chan) (b : Entry) :
    ((Write w b).n = b.length ∧ (Write w b).err = none ∧
      (Write w b).chan = ⟨w.buf ++ [b], w.cap⟩) ∨
    ((Write w b).n = 0 ∧ (Write w b).err ≠ none ∧ (Write w b).chan = w) := by
  by_cases h1 : b.length > maxLogSize
  · right
    simp [Write, h1]
  · by_cases h2 : w.buf.length < w.cap
    · left
      simp [Write, h1, h2]
    · right
      simp [Write, h1, h2]

end Rplog
